import Mathlib

/-!
Verification of the text-fitting and placement core of the certificate
distribution platform (`app/certificate_generator.py`).

The imaging backend (Pillow) supplies text measurement: `draw.textbbox`
returns an integer bounding box `(left, top, right, bottom)`.  We model it
as an abstract function `measure : Text → Bbox` (per font), respectively
`measureAt : Int → Text → Bbox` (font size → text → box), and quantify over
it: every theorem below holds for an arbitrary measurement function unless
it explicitly assumes more.  A font object is identified by its integer
size, since `_load_font` is deterministic in the size for a fixed
deployment.  Python floats are modelled as rationals (`ℚ`); Python `int()`
on a float truncates toward zero, modelled by `intTrunc`.  Python strings
are modelled as `List Char`; `str.strip` / `str.rstrip` strip whitespace
characters (modelled via `Char.isWhitespace`).  File-system concerns
(template loading, PDF export, output paths) and color parsing do not
affect text fitting or placement and stay outside the model; the layout
pipeline of `generate_certificate` / `generate_management_certificate`
from the opened canvas onward is translated faithfully.
-/

/-- Bounding box as returned by `draw.textbbox((0, 0), text, font)`. -/
structure Bbox where
  left : Int
  top : Int
  right : Int
  bottom : Int
deriving DecidableEq

/-- Measured text width, `right - left`. -/
def Bbox.width (b : Bbox) : Int := b.right - b.left

/-- Measured text height, `bottom - top`. -/
def Bbox.height (b : Bbox) : Int := b.bottom - b.top

/-- Python strings are modelled as lists of characters. -/
abbrev Text := List Char

/-- The ellipsis character `…` used by `_truncate_to_fit`. -/
def ellipsisChar : Char := '…'

/-- Python `str.rstrip()`: drop trailing whitespace. -/
def rstrip (l : Text) : Text := (l.reverse.dropWhile Char.isWhitespace).reverse

/-- Python `str.strip()`: drop leading and trailing whitespace. -/
def strip (l : Text) : Text := rstrip (l.dropWhile Char.isWhitespace)

/-- Candidate string probed by the binary search in `_truncate_to_fit`:
`(base[:mid].rstrip() + ellipsis) if mid < len(base) else base`. -/
def candFn (base : Text) (mid : Nat) : Text :=
  if mid < base.length then rstrip (base.take mid) ++ [ellipsisChar] else base

/-- The `while lo <= hi` binary-search loop of `_truncate_to_fit`.
In Python `hi` becomes `-1` when a probe at `mid = 0` fails, ending the
loop; with `Nat` bounds this is the explicit `mid = 0` exit. -/
def truncLoop (w : Text → Int) (base : Text) (maxW : Int) (lo hi : Nat) (best : Text) : Text :=
  if _h : lo ≤ hi then
    let mid := (lo + hi) / 2
    let cand := candFn base mid
    if w cand ≤ maxW then truncLoop w base maxW (mid + 1) hi cand
    else if mid = 0 then best
    else truncLoop w base maxW lo (mid - 1) best
  else best
termination_by hi + 1 - lo
decreasing_by all_goals omega

/-- Translation of `CertificateGenerator._truncate_to_fit(draw, text, font, max_width)`.
The font is fixed, so measurement is a single function `measure`. -/
def truncateToFit (measure : Text → Bbox) (text : Text) (maxW : Int) : Text :=
  if (measure text).right - (measure text).left ≤ maxW then text
  else
    let base := strip text
    if base.isEmpty then []
    else
      let best := truncLoop (fun s => (measure s).right - (measure s).left) base maxW 0 base.length []
      if best.isEmpty then [ellipsisChar] else best

/-- The `while size >= min_size` loop of `_fit_text`, decrementing by 2;
the fall-through returns the font loaded at `min_size`. -/
def fitLoop (wAt : Int → Int) (maxW minS : Int) (size : Int) : Int :=
  if minS ≤ size then
    if wAt size ≤ maxW then size else fitLoop wAt maxW minS (size - 2)
  else minS
termination_by (size - minS + 2).toNat
decreasing_by omega

/-- Translation of `CertificateGenerator._fit_text(draw, text, max_width, start_size, min_size)`,
returning the size of the chosen font. -/
def fitText (measureAt : Int → Text → Bbox) (text : Text) (maxW startSize minSize : Int) : Int :=
  fitLoop (fun s => (measureAt s text).right - (measureAt s text).left) maxW minSize startSize

/-- Python `int()` applied to a float: truncation toward zero. -/
def intTrunc (q : ℚ) : Int := if q < 0 then ⌈q⌉ else ⌊q⌋

/-- Translation of `_draw_text_with_letter_spacing`: the cursor starts at `x` and after each
glyph advances by `char_width + int(char_width * letter_spacing)`.  The result
lists the successive cursor positions (one before each glyph, plus the final
cursor after the last glyph). -/
def spacedPositions (charW : Char → Int) (letterSpacing : ℚ) (x : ℚ) : Text → List ℚ
  | [] => [x]
  | c :: cs =>
    let charWidth := charW c
    let spacingPx := intTrunc ((charWidth : ℚ) * letterSpacing)
    x :: spacedPositions charW letterSpacing (x + (charWidth : ℚ) + (spacingPx : ℚ)) cs

/-- Environment-sourced layout options of `generate_certificate`.
`marginPx` models `CERT_NAME_MARGIN_PX` when set to a digits-only string
(hence a non-negative integer); `marginRatio` models
`CERT_NAME_MARGIN_RATIO` (default `0.12`); the remaining fields model
`CERT_NAME_FONT_SIZE`, `CERT_NAME_MIN_FONT_SIZE`, `CERT_NAME_Y_RATIO` and
`CERT_NAME_Y_OFFSET` after parsing. -/
structure StudentConfig where
  marginPx : Option Nat
  marginRatio : ℚ
  startSize : Int
  minSize : Int
  yRatio : ℚ
  yOffset : ℚ
deriving DecidableEq

/-- One placed line of text: final string, font size, draw coordinates and
its measured width and height. -/
structure Placed where
  text : Text
  size : Int
  x : ℚ
  y : ℚ
  w : Int
  h : Int
deriving DecidableEq

/-- Result of the student-certificate layout pipeline. -/
structure Layout where
  margin : Int
  maxTextWidth : Int
  primary : Placed
  secondary : Option Placed
deriving DecidableEq

/-- Error raised when the input name is empty after trimming
(`ValueError("Student name is empty")` in the source; the spec calls it
`EmptyInputError`). -/
inductive GenError where
  | emptyInput
deriving DecidableEq

/-- Layout pipeline of `generate_certificate` from the opened canvas of size
`width × height` onward: margin and width budget, empty-name check, fitting,
truncation, centering, clamping, and the optional course line. -/
def generateCertificate (measureAt : Int → Text → Bbox) (width height : Int)
    (cfg : StudentConfig) (studentName : Text) (course : Option Text) :
    Except GenError Layout :=
  let margin : Int :=
    match cfg.marginPx with
    | some n => (n : Int)
    | none => intTrunc ((width : ℚ) * cfg.marginRatio)
  let maxTextWidth : Int := max 1 (width - 2 * margin)
  let centerY : ℚ := (height : ℚ) * cfg.yRatio + cfg.yOffset
  let name := strip studentName
  if name.isEmpty then .error .emptyInput
  else
    let size := fitText measureAt name maxTextWidth cfg.startSize cfg.minSize
    let name1 := truncateToFit (measureAt size) name maxTextWidth
    let bb := measureAt size name1
    let textW := bb.right - bb.left
    let textH := bb.bottom - bb.top
    let x0 : ℚ := ((width : ℚ) - (textW : ℚ)) / 2 - (bb.left : ℚ)
    let y : ℚ := (centerY - (textH : ℚ) / 2) - (bb.top : ℚ)
    let x : ℚ := max (margin : ℚ) (min x0 ((width : ℚ) - (margin : ℚ) - (textW : ℚ)))
    let secondary : Option Placed :=
      match course with
      | none => none
      | some c =>
        if (strip c).isEmpty then none
        else
          let c1 := strip c
          let courseFontSize : Int := max cfg.minSize (intTrunc ((cfg.startSize : ℚ) * (3 / 5)))
          let c2 := truncateToFit (measureAt courseFontSize) c1 maxTextWidth
          let bbc := measureAt courseFontSize c2
          let courseW := bbc.right - bbc.left
          let courseH := bbc.bottom - bbc.top
          let padding : Int := intTrunc ((height : ℚ) * (1 / 50))
          let yc : ℚ := y + (textH : ℚ) + (padding : ℚ) - (bbc.top : ℚ)
          let xc0 : ℚ := ((width : ℚ) - (courseW : ℚ)) / 2 - (bbc.left : ℚ)
          let xc : ℚ := max (margin : ℚ) (min xc0 ((width : ℚ) - (margin : ℚ) - (courseW : ℚ)))
          some ⟨c2, courseFontSize, xc, yc, courseW, courseH⟩
    .ok ⟨margin, maxTextWidth, ⟨name1, size, x, y, textW, textH⟩, secondary⟩

/-- Environment-sourced layout options of `generate_management_certificate`
(`CERT_MGMT_*` variables, falling back to the `CERT_NAME_*` ones), after
parsing. -/
structure MgmtConfig where
  marginPx : Option Nat
  marginRatio : ℚ
  startSize : Int
  minSize : Int
  yRatio : ℚ
  yOffset : ℚ
  xOffset : ℚ
  letterSpacing : ℚ
deriving DecidableEq

/-- Result of the management-certificate layout pipeline.  `xClamped` is the
x coordinate right after the safety clamp and before the cosmetic
`x_offset`; `name.x` is the final draw coordinate; `positions` are the
cursor positions of the letter-spaced drawing. -/
structure MgmtLayout where
  margin : Int
  maxTextWidth : Int
  name : Placed
  xClamped : ℚ
  positions : List ℚ
deriving DecidableEq

/-- Layout pipeline of `generate_management_certificate` from the opened
canvas onward. -/
def generateManagementCertificate (measureAt : Int → Text → Bbox) (width height : Int)
    (cfg : MgmtConfig) (personName : Text) : Except GenError MgmtLayout :=
  let margin : Int :=
    match cfg.marginPx with
    | some n => (n : Int)
    | none => intTrunc ((width : ℚ) * cfg.marginRatio)
  let maxTextWidth : Int := max 1 (width - 2 * margin)
  let centerY : ℚ := (height : ℚ) * cfg.yRatio + cfg.yOffset
  let name := strip personName
  if name.isEmpty then .error .emptyInput
  else
    let size := fitText measureAt name maxTextWidth cfg.startSize cfg.minSize
    let name1 := truncateToFit (measureAt size) name maxTextWidth
    let bb := measureAt size name1
    let textW := bb.right - bb.left
    let textH := bb.bottom - bb.top
    let x0 : ℚ := ((width : ℚ) - (textW : ℚ)) / 2 - (bb.left : ℚ)
    let y : ℚ := (centerY - (textH : ℚ) / 2) - (bb.top : ℚ)
    let xClamped : ℚ := max (margin : ℚ) (min x0 ((width : ℚ) - (margin : ℚ) - (textW : ℚ)))
    let x : ℚ := xClamped + cfg.xOffset
    let positions :=
      spacedPositions (fun ch => (measureAt size [ch]).right - (measureAt size [ch]).left)
        cfg.letterSpacing x name1
    .ok ⟨margin, maxTextWidth, ⟨name1, size, x, y, textW, textH⟩, xClamped, positions⟩

/-- Margin recorded by a successful student-certificate run. -/
def marginOf (r : Except GenError Layout) : Option Int :=
  match r with
  | .ok l => some l.margin
  | .error _ => none

/-- Primary placement recorded by a successful student-certificate run. -/
def primaryOf (r : Except GenError Layout) : Option Placed :=
  match r with
  | .ok l => some l.primary
  | .error _ => none

/-- Secondary (course) placement recorded by a successful run. -/
def secondaryOf (r : Except GenError Layout) : Option Placed :=
  match r with
  | .ok l => l.secondary
  | .error _ => none

/-- Measurement function that reports width 0 for every string (used to
instantiate witnesses on concrete inputs). -/
def zeroMeasureAt : Int → Text → Bbox := fun _ _ => ⟨0, 0, 0, 10⟩

/-- Width-0 measurement for a single fixed font. -/
def zeroMeasure : Text → Bbox := zeroMeasureAt 0

/-- Measurement function that reports width 200 for every string, wider than
any budget used with it: even the bare ellipsis overflows. -/
def wideMeasureAt : Int → Text → Bbox := fun _ _ => ⟨0, 0, 200, 10⟩

/-- Measurement with nonzero top bearing: the box of `text` at size `s` is
`(0, 5, len(text), 5 + s)`. -/
def bearingMeasureAt : Int → Text → Bbox := fun s t => ⟨0, 5, (t.length : Int), 5 + s⟩

/-- Per-glyph width 10 for every character (Scenario E instantiation). -/
def tenCharW : Char → Int := fun _ => 10

/-- The `Layout` payload produced by a successful `generate_certificate` run
(the computation after the empty-name check succeeds). -/
def studentLayout (measureAt : Int → Text → Bbox) (width height : Int)
    (cfg : StudentConfig) (studentName : Text) (course : Option Text) : Layout :=
  let margin : Int :=
    match cfg.marginPx with
    | some n => (n : Int)
    | none => intTrunc ((width : ℚ) * cfg.marginRatio)
  let maxTextWidth : Int := max 1 (width - 2 * margin)
  let centerY : ℚ := (height : ℚ) * cfg.yRatio + cfg.yOffset
  let name := strip studentName
  let size := fitText measureAt name maxTextWidth cfg.startSize cfg.minSize
  let name1 := truncateToFit (measureAt size) name maxTextWidth
  let bb := measureAt size name1
  let textW := bb.right - bb.left
  let textH := bb.bottom - bb.top
  let x0 : ℚ := ((width : ℚ) - (textW : ℚ)) / 2 - (bb.left : ℚ)
  let y : ℚ := (centerY - (textH : ℚ) / 2) - (bb.top : ℚ)
  let x : ℚ := max (margin : ℚ) (min x0 ((width : ℚ) - (margin : ℚ) - (textW : ℚ)))
  let secondary : Option Placed :=
    match course with
    | none => none
    | some c =>
      if (strip c).isEmpty then none
      else
        let c1 := strip c
        let courseFontSize : Int := max cfg.minSize (intTrunc ((cfg.startSize : ℚ) * (3 / 5)))
        let c2 := truncateToFit (measureAt courseFontSize) c1 maxTextWidth
        let bbc := measureAt courseFontSize c2
        let courseW := bbc.right - bbc.left
        let courseH := bbc.bottom - bbc.top
        let padding : Int := intTrunc ((height : ℚ) * (1 / 50))
        let yc : ℚ := y + (textH : ℚ) + (padding : ℚ) - (bbc.top : ℚ)
        let xc0 : ℚ := ((width : ℚ) - (courseW : ℚ)) / 2 - (bbc.left : ℚ)
        let xc : ℚ := max (margin : ℚ) (min xc0 ((width : ℚ) - (margin : ℚ) - (courseW : ℚ)))
        some ⟨c2, courseFontSize, xc, yc, courseW, courseH⟩
  ⟨margin, maxTextWidth, ⟨name1, size, x, y, textW, textH⟩, secondary⟩

/-- The `MgmtLayout` payload produced by a successful
`generate_management_certificate` run. -/
def managementLayout (measureAt : Int → Text → Bbox) (width height : Int)
    (cfg : MgmtConfig) (personName : Text) : MgmtLayout :=
  let margin : Int :=
    match cfg.marginPx with
    | some n => (n : Int)
    | none => intTrunc ((width : ℚ) * cfg.marginRatio)
  let maxTextWidth : Int := max 1 (width - 2 * margin)
  let centerY : ℚ := (height : ℚ) * cfg.yRatio + cfg.yOffset
  let name := strip personName
  let size := fitText measureAt name maxTextWidth cfg.startSize cfg.minSize
  let name1 := truncateToFit (measureAt size) name maxTextWidth
  let bb := measureAt size name1
  let textW := bb.right - bb.left
  let textH := bb.bottom - bb.top
  let x0 : ℚ := ((width : ℚ) - (textW : ℚ)) / 2 - (bb.left : ℚ)
  let y : ℚ := (centerY - (textH : ℚ) / 2) - (bb.top : ℚ)
  let xClamped : ℚ := max (margin : ℚ) (min x0 ((width : ℚ) - (margin : ℚ) - (textW : ℚ)))
  let x : ℚ := xClamped + cfg.xOffset
  let positions :=
    spacedPositions (fun ch => (measureAt size [ch]).right - (measureAt size [ch]).left)
      cfg.letterSpacing x name1
  ⟨margin, maxTextWidth, ⟨name1, size, x, y, textW, textH⟩, xClamped, positions⟩

/-- Witness configuration mirroring the default student settings. -/
def wCfg : StudentConfig := ⟨some 10, 12 / 100, 20, 10, 1 / 2, 0⟩

/-- Witness configuration mirroring the management settings. -/
def wMgmtCfg : MgmtConfig := ⟨some 10, 12 / 100, 20, 10, 1 / 2, 0, 5, 3 / 200⟩

/-- Configuration with a negative margin ratio and no pixel override. -/
def negRatioCfg : StudentConfig := ⟨none, -1, 20, 10, 1 / 2, 0⟩

/-- Configuration used to exhibit an overflowing clamp: pixel margin 12,
start size 12 below min size 14. -/
def cex3Cfg : StudentConfig := ⟨some 12, 12 / 100, 12, 14, 1 / 2, 0⟩

/-- Configuration used for the secondary-line placement check: pixel margin
100, start size 40, min size 14. -/
def cex4Cfg : StudentConfig := ⟨some 100, 12 / 100, 40, 14, 1 / 2, 0⟩

/-- Correctness of the `_fit_text` loop: starting from any `size ≥ minS`, the
returned size stays in `[minS, size]` and either fits the budget or is the
floor `minS`. -/
theorem fitLoop_spec (wAt : Int → Int) (maxW minS : Int) :
    ∀ n : Nat, ∀ size : Int, (size - minS).toNat ≤ n → minS ≤ size →
      minS ≤ fitLoop wAt maxW minS size ∧ fitLoop wAt maxW minS size ≤ size ∧
        (wAt (fitLoop wAt maxW minS size) ≤ maxW ∨ fitLoop wAt maxW minS size = minS) := by
  intro n
  induction n with
  | zero =>
    intro size hn hs
    rw [fitLoop, if_pos hs]
    by_cases hw : wAt size ≤ maxW
    · rw [if_pos hw]
      exact ⟨hs, le_rfl, Or.inl hw⟩
    · rw [if_neg hw, fitLoop, if_neg (by omega)]
      exact ⟨le_rfl, hs, Or.inr rfl⟩
  | succ n ih =>
    intro size hn hs
    rw [fitLoop, if_pos hs]
    by_cases hw : wAt size ≤ maxW
    · rw [if_pos hw]
      exact ⟨hs, le_rfl, Or.inl hw⟩
    · rw [if_neg hw]
      by_cases h2 : minS ≤ size - 2
      · have h3 := ih (size - 2) (by omega) h2
        exact ⟨h3.1, by omega, h3.2.2⟩
      · rw [fitLoop, if_neg h2]
        exact ⟨le_rfl, hs, Or.inr rfl⟩

/-- C2: For every text, max width, and size range with `start_size ≥ min_size`,
`_fit_text` returns a font whose size lies in `[min_size, start_size]`, and
either the measured width of the text at that size is within `max_width` or
the size is the best-effort floor `min_size`. -/
theorem claim2_fit_text_size_range (measureAt : Int → Text → Bbox) (text : Text)
    (maxW startSize minSize : Int) (hrange : minSize ≤ startSize) :
    minSize ≤ fitText measureAt text maxW startSize minSize ∧
      fitText measureAt text maxW startSize minSize ≤ startSize ∧
      ((measureAt (fitText measureAt text maxW startSize minSize) text).width ≤ maxW ∨
        fitText measureAt text maxW startSize minSize = minSize) := by
  have h := fitLoop_spec (fun s => (measureAt s text).right - (measureAt s text).left)
    maxW minSize (startSize - minSize).toNat startSize le_rfl hrange
  exact ⟨h.1, h.2.1, h.2.2⟩

/-- Witness for C2 on a concrete input. -/
theorem claim2_witness :
    (5 : Int) ≤ 10 ∧
      ((5 : Int) ≤ fitText zeroMeasureAt ['A'] 7 10 5 ∧
        fitText zeroMeasureAt ['A'] 7 10 5 ≤ 10 ∧
        ((zeroMeasureAt (fitText zeroMeasureAt ['A'] 7 10 5) ['A']).width ≤ 7 ∨
          fitText zeroMeasureAt ['A'] 7 10 5 = 5)) :=
  ⟨by norm_num, claim2_fit_text_size_range zeroMeasureAt ['A'] 7 10 5 (by norm_num)⟩

/-- C10: With an inverted size range (`start_size < min_size`) the descending
loop of `_fit_text` never runs: for every measurement function the fitter
totally returns `min_size`, a size strictly greater than `start_size`. -/
theorem claim10_inverted_range (measureAt : Int → Text → Bbox) (text : Text)
    (maxW startSize minSize : Int) (hlt : startSize < minSize) :
    fitText measureAt text maxW startSize minSize = minSize := by
  rw [fitText, fitLoop, if_neg (by omega)]

/-- Witness for C10 on a concrete input. -/
theorem claim10_witness :
    (3 : Int) < 5 ∧ fitText wideMeasureAt ['A'] 9 3 5 = 5 :=
  ⟨by norm_num, claim10_inverted_range wideMeasureAt ['A'] 9 3 5 (by norm_num)⟩

/-- Dropping trailing whitespace never lengthens a string. -/
theorem length_rstrip_le (l : Text) : (rstrip l).length ≤ l.length := by
  rw [rstrip, List.length_reverse]
  calc (l.reverse.dropWhile Char.isWhitespace).length
      ≤ l.reverse.length := (List.dropWhile_sublist _).length_le
    _ = l.length := List.length_reverse l

/-- Stripping never lengthens a string. -/
theorem length_strip_le (l : Text) : (strip l).length ≤ l.length :=
  le_trans (length_rstrip_le _) (le_trans ((List.dropWhile_sublist _).length_le) le_rfl)

/-- Appending more characters never shortens the rstripped length. -/
theorem length_rstrip_append (s t : Text) :
    (rstrip s).length ≤ (rstrip (s ++ t)).length := by
  rw [rstrip, rstrip, List.reverse_append, List.dropWhile_append]
  simp only [List.length_reverse]
  split
  · exact le_rfl
  · rw [List.length_append, List.length_reverse]
    have h1 : (s.reverse.dropWhile Char.isWhitespace).length ≤ s.length := by
      calc (s.reverse.dropWhile Char.isWhitespace).length
          ≤ s.reverse.length := (List.dropWhile_sublist _).length_le
        _ = s.length := List.length_reverse s
    omega

/-- The rstripped length of a left slice is monotone in the slice bound. -/
theorem length_rstrip_take_mono (l : Text) {j k : Nat} (h : j ≤ k) :
    (rstrip (l.take j)).length ≤ (rstrip (l.take k)).length := by
  have h0 := List.take_append_drop j (l.take k)
  rw [List.take_take, Nat.min_eq_left h] at h0
  calc (rstrip (l.take j)).length
      ≤ (rstrip (l.take j ++ (l.take k).drop j)).length := length_rstrip_append _ _
    _ = (rstrip (l.take k)).length := by rw [h0]

/-- Candidate length is monotone in the probed position `mid`. -/
theorem candFn_length_mono (base : Text) {j k : Nat} (h : j ≤ k) :
    (candFn base j).length ≤ (candFn base k).length := by
  rw [candFn, candFn]
  by_cases hj : j < base.length
  · rw [if_pos hj]
    by_cases hk : k < base.length
    · rw [if_pos hk]
      simp only [List.length_append, List.length_singleton]
      exact Nat.add_le_add_right (length_rstrip_take_mono base h) 1
    · rw [if_neg hk]
      have h1 : (rstrip (base.take j)).length ≤ (base.take j).length := length_rstrip_le _
      have h2 : (base.take j).length ≤ j := by simp [List.length_take]
      simp only [List.length_append, List.length_singleton]
      omega
  · rw [if_neg hj, if_neg (by omega)]

/-- Candidates built from a nonempty base are nonempty. -/
theorem candFn_ne_nil {base : Text} (hb : base ≠ []) (j : Nat) : candFn base j ≠ [] := by
  rw [candFn]
  split
  · simp
  · exact hb

/-- The binary-search loop returns either its incoming `best` or some probed
candidate that fits the budget. -/
theorem truncLoop_result (w : Text → Int) (base : Text) (maxW : Int) :
    ∀ n lo hi best, hi + 1 - lo ≤ n →
      truncLoop w base maxW lo hi best = best ∨
        ∃ j, w (candFn base j) ≤ maxW ∧ truncLoop w base maxW lo hi best = candFn base j := by
  intro n
  induction n with
  | zero =>
    intro lo hi best hn
    rw [truncLoop, dif_neg (by omega)]
    exact Or.inl rfl
  | succ n ih =>
    intro lo hi best hn
    by_cases hlh : lo ≤ hi
    · rw [truncLoop, dif_pos hlh]
      by_cases hw : w (candFn base ((lo + hi) / 2)) ≤ maxW
      · rw [if_pos hw]
        rcases ih ((lo + hi) / 2 + 1) hi (candFn base ((lo + hi) / 2)) (by omega) with h1 | ⟨j, hj1, hj2⟩
        · exact Or.inr ⟨(lo + hi) / 2, hw, h1⟩
        · exact Or.inr ⟨j, hj1, hj2⟩
      · rw [if_neg hw]
        by_cases hm : (lo + hi) / 2 = 0
        · rw [if_pos hm]
          exact Or.inl rfl
        · rw [if_neg hm]
          exact ih lo ((lo + hi) / 2 - 1) best (by omega)
    · rw [truncLoop, dif_neg hlh]
      exact Or.inl rfl

/-- A run of the loop started with a nonempty `best` over a nonempty base
never returns the empty string. -/
theorem truncLoop_ne_nil (w : Text → Int) {base : Text} (maxW : Int) (hb : base ≠ [])
    (lo hi : Nat) {best : Text} (hbest : best ≠ []) :
    truncLoop w base maxW lo hi best ≠ [] := by
  rcases truncLoop_result w base maxW (hi + 1 - lo) lo hi best le_rfl with h | ⟨j, _, hj⟩
  · rw [h]; exact hbest
  · rw [hj]; exact candFn_ne_nil hb j

/-- Upper bound on the loop result: any bound dominating the incoming `best`
and every candidate up to `hi` dominates the result. -/
theorem truncLoop_length_le (w : Text → Int) (base : Text) (maxW : Int) :
    ∀ n lo hi best (B : Nat), hi + 1 - lo ≤ n →
      (∀ j, j ≤ hi → (candFn base j).length ≤ B) → best.length ≤ B →
      (truncLoop w base maxW lo hi best).length ≤ B := by
  intro n
  induction n with
  | zero =>
    intro lo hi best B hn hcand hbest
    rw [truncLoop, dif_neg (by omega)]
    exact hbest
  | succ n ih =>
    intro lo hi best B hn hcand hbest
    by_cases hlh : lo ≤ hi
    · rw [truncLoop, dif_pos hlh]
      by_cases hw : w (candFn base ((lo + hi) / 2)) ≤ maxW
      · rw [if_pos hw]
        exact ih ((lo + hi) / 2 + 1) hi _ B (by omega) hcand (hcand _ (by omega))
      · rw [if_neg hw]
        by_cases hm : (lo + hi) / 2 = 0
        · rw [if_pos hm]; exact hbest
        · rw [if_neg hm]
          exact ih lo ((lo + hi) / 2 - 1) best B (by omega)
            (fun j hj => hcand j (by omega)) hbest
    · rw [truncLoop, dif_neg hlh]
      exact hbest

/-- Lower bound on the loop result: a `best` dominated by every candidate from
`lo` on is dominated by the result. -/
theorem truncLoop_le_length (w : Text → Int) (base : Text) (maxW : Int) :
    ∀ n lo hi best, hi + 1 - lo ≤ n →
      (∀ j, lo ≤ j → best.length ≤ (candFn base j).length) →
      best.length ≤ (truncLoop w base maxW lo hi best).length := by
  intro n
  induction n with
  | zero =>
    intro lo hi best hn hcand
    rw [truncLoop, dif_neg (by omega)]
  | succ n ih =>
    intro lo hi best hn hcand
    by_cases hlh : lo ≤ hi
    · rw [truncLoop, dif_pos hlh]
      by_cases hw : w (candFn base ((lo + hi) / 2)) ≤ maxW
      · rw [if_pos hw]
        have h1 : best.length ≤ (candFn base ((lo + hi) / 2)).length := hcand _ (by omega)
        have h2 := ih ((lo + hi) / 2 + 1) hi (candFn base ((lo + hi) / 2)) (by omega)
          (fun j hj => candFn_length_mono base (by omega))
        exact le_trans h1 h2
      · rw [if_neg hw]
        by_cases hm : (lo + hi) / 2 = 0
        · rw [if_pos hm]
        · rw [if_neg hm]
          exact ih lo ((lo + hi) / 2 - 1) best (by omega) hcand
    · rw [truncLoop, dif_neg hlh]

/-- Lockstep comparison of two runs of the binary search over the same base
and measurement but with budgets `W1 ≤ W2`: the wider budget never produces a
shorter result. -/
theorem truncLoop_length_mono (w : Text → Int) (base : Text) {W1 W2 : Int} (hW : W1 ≤ W2) :
    ∀ n lo hi b1 b2, hi + 1 - lo ≤ n → b1.length ≤ b2.length →
      (∀ j, lo ≤ j → j ≤ hi → b1.length ≤ (candFn base j).length) →
      (truncLoop w base W1 lo hi b1).length ≤ (truncLoop w base W2 lo hi b2).length := by
  intro n
  induction n with
  | zero =>
    intro lo hi b1 b2 hn hlen hinv
    rw [truncLoop, truncLoop, dif_neg (by omega), dif_neg (by omega)]
    exact hlen
  | succ n ih =>
    intro lo hi b1 b2 hn hlen hinv
    by_cases hlh : lo ≤ hi
    · rw [truncLoop, truncLoop, dif_pos hlh, dif_pos hlh]
      by_cases h1 : w (candFn base ((lo + hi) / 2)) ≤ W1
      · have h2 : w (candFn base ((lo + hi) / 2)) ≤ W2 := le_trans h1 hW
        rw [if_pos h1, if_pos h2]
        exact ih ((lo + hi) / 2 + 1) hi _ _ (by omega) le_rfl
          (fun j hj1 hj2 => candFn_length_mono base (by omega))
      · by_cases h2 : w (candFn base ((lo + hi) / 2)) ≤ W2
        · rw [if_neg h1, if_pos h2]
          have hLb : b1.length ≤ (candFn base ((lo + hi) / 2)).length :=
            hinv _ (by omega) (by omega)
          have hR : (candFn base ((lo + hi) / 2)).length ≤
              (truncLoop w base W2 ((lo + hi) / 2 + 1) hi (candFn base ((lo + hi) / 2))).length :=
            truncLoop_le_length w base W2 (hi + 1 - ((lo + hi) / 2 + 1)) _ hi _ le_rfl
              (fun j hj => candFn_length_mono base (by omega))
          by_cases hm : (lo + hi) / 2 = 0
          · rw [if_pos hm]
            exact le_trans hLb hR
          · rw [if_neg hm]
            have hL : (truncLoop w base W1 lo ((lo + hi) / 2 - 1) b1).length ≤
                (candFn base ((lo + hi) / 2)).length :=
              truncLoop_length_le w base W1 ((lo + hi) / 2 - 1 + 1 - lo) lo _ b1 _ le_rfl
                (fun j hj => candFn_length_mono base (by omega)) hLb
            exact le_trans hL hR
        · rw [if_neg h1, if_neg h2]
          by_cases hm : (lo + hi) / 2 = 0
          · rw [if_pos hm, if_pos hm]
            exact hlen
          · rw [if_neg hm, if_neg hm]
            exact ih lo ((lo + hi) / 2 - 1) b1 b2 (by omega) hlen
              (fun j hj1 hj2 => hinv j hj1 (by omega))
    · rw [truncLoop, truncLoop, dif_neg hlh, dif_neg hlh]
      exact hlen

/-- A loop started at `lo = 0` with empty `best` only returns the empty
string after actually probing position 0 and finding that even the bare
ellipsis candidate fails the budget. -/
theorem truncLoop_nil_probe (w : Text → Int) {base : Text} (maxW : Int) (hb : base ≠ []) :
    ∀ n hi best, hi ≤ n → truncLoop w base maxW 0 hi best = [] →
      best = [] ∧ ¬ w (candFn base 0) ≤ maxW := by
  intro n
  induction n with
  | zero =>
    intro hi best hn h
    have hhi : hi = 0 := by omega
    subst hhi
    rw [truncLoop, dif_pos le_rfl] at h
    by_cases hw : w (candFn base ((0 + 0) / 2)) ≤ maxW
    · rw [if_pos hw] at h
      exact absurd h (truncLoop_ne_nil w maxW hb _ _ (candFn_ne_nil hb _))
    · rw [if_neg hw, if_pos rfl] at h
      exact ⟨h, hw⟩
  | succ n ih =>
    intro hi best hn h
    rw [truncLoop, dif_pos (Nat.zero_le hi)] at h
    by_cases hw : w (candFn base ((0 + hi) / 2)) ≤ maxW
    · rw [if_pos hw] at h
      exact absurd h (truncLoop_ne_nil w maxW hb _ _ (candFn_ne_nil hb _))
    · rw [if_neg hw] at h
      by_cases hm : (0 + hi) / 2 = 0
      · rw [if_pos hm] at h
        rw [hm] at hw
        exact ⟨h, hw⟩
      · rw [if_neg hm] at h
        exact ih ((0 + hi) / 2 - 1) best (by omega) h


/-- Unfolding of `_truncate_to_fit` with its `let` bindings expanded. -/
theorem truncateToFit_eq (measure : Text → Bbox) (text : Text) (maxW : Int) :
    truncateToFit measure text maxW =
      if (measure text).right - (measure text).left ≤ maxW then text
      else if (strip text).isEmpty then []
      else if (truncLoop (fun s => (measure s).right - (measure s).left) (strip text)
          maxW 0 (strip text).length []).isEmpty then [ellipsisChar]
      else truncLoop (fun s => (measure s).right - (measure s).left) (strip text)
        maxW 0 (strip text).length [] := by
  rw [truncateToFit]

/-- C1: For every text, font (measurement) and width budget `maxW ≥ 1`, the
string returned by `_truncate_to_fit` measures within `maxW`, or it is the
empty string, or it is the bare ellipsis. -/
theorem claim1_truncate_width_bound (measure : Text → Bbox) (text : Text) (maxW : Int)
    (hW : 1 ≤ maxW) :
    (measure (truncateToFit measure text maxW)).width ≤ maxW ∨
      truncateToFit measure text maxW = [] ∨
      truncateToFit measure text maxW = [ellipsisChar] := by
  rw [truncateToFit_eq]
  by_cases h1 : (measure text).right - (measure text).left ≤ maxW
  · rw [if_pos h1]
    exact Or.inl (by rw [Bbox.width]; exact h1)
  · rw [if_neg h1]
    by_cases hbase : (strip text).isEmpty = true
    · rw [if_pos hbase]
      exact Or.inr (Or.inl rfl)
    · rw [if_neg hbase]
      have hb : strip text ≠ [] := fun hh => hbase (by rw [hh]; rfl)
      by_cases hbest : (truncLoop (fun s => (measure s).right - (measure s).left) (strip text)
          maxW 0 (strip text).length []).isEmpty = true
      · rw [if_pos hbest]
        exact Or.inr (Or.inr rfl)
      · rw [if_neg hbest]
        rcases truncLoop_result (fun s => (measure s).right - (measure s).left) (strip text)
            maxW ((strip text).length + 1) 0 (strip text).length [] (by omega) with h | ⟨j, hj1, hj2⟩
        · exact absurd (by rw [h]; rfl) hbest
        · refine Or.inl ?_
          rw [hj2, Bbox.width]
          exact hj1

/-- Witness for C1 on a concrete input. -/
theorem claim1_witness :
    (1 : Int) ≤ 5 ∧
      ((zeroMeasure (truncateToFit zeroMeasure ['A', 'B'] 5)).width ≤ 5 ∨
        truncateToFit zeroMeasure ['A', 'B'] 5 = [] ∨
        truncateToFit zeroMeasure ['A', 'B'] 5 = [ellipsisChar]) :=
  ⟨by norm_num, claim1_truncate_width_bound zeroMeasure ['A', 'B'] 5 (by norm_num)⟩

/-- Candidates probed over `base` never exceed the base length. -/
theorem candFn_length_le (base : Text) (j : Nat) (hj : j ≤ base.length) :
    (candFn base j).length ≤ base.length := by
  have h1 := candFn_length_mono base hj
  have h2 : candFn base base.length = base := by
    rw [candFn, if_neg (lt_irrefl _)]
  rw [h2] at h1
  exact h1

/-- C6: More available width never yields a shorter truncation: for budgets
`W1 < W2` the result of `_truncate_to_fit` at `W1` is at most as long as the
result at `W2`. -/
theorem claim6_truncate_monotone (measure : Text → Bbox) (text : Text) (W1 W2 : Int)
    (hW : W1 < W2) :
    (truncateToFit measure text W1).length ≤ (truncateToFit measure text W2).length := by
  rw [truncateToFit_eq, truncateToFit_eq]
  by_cases h1 : (measure text).right - (measure text).left ≤ W1
  · rw [if_pos h1, if_pos (le_trans h1 (le_of_lt hW))]
  · rw [if_neg h1]
    by_cases hbase : (strip text).isEmpty = true
    · rw [if_pos hbase]
      exact Nat.zero_le _
    · rw [if_neg hbase]
      have hb : strip text ≠ [] := fun hh => hbase (by rw [hh]; rfl)
      have htext : text ≠ [] := by
        intro hh
        apply hb
        rw [hh]
        rfl
      have hlen1 : 1 ≤ text.length := by
        cases text with
        | nil => exact absurd rfl htext
        | cons a l => exact Nat.succ_le_succ (Nat.zero_le _)
      by_cases h2 : (measure text).right - (measure text).left ≤ W2
      · rw [if_pos h2]
        have hup : (truncLoop (fun s => (measure s).right - (measure s).left) (strip text)
            W1 0 (strip text).length []).length ≤ (strip text).length :=
          truncLoop_length_le _ (strip text) W1 ((strip text).length + 1) 0 _ [] _ (by omega)
            (fun j hj => candFn_length_le (strip text) j hj) (Nat.zero_le _)
        by_cases hb1 : (truncLoop (fun s => (measure s).right - (measure s).left) (strip text)
            W1 0 (strip text).length []).isEmpty = true
        · rw [if_pos hb1]
          exact hlen1
        · rw [if_neg hb1]
          exact le_trans hup (length_strip_le text)
      · rw [if_neg h2, if_neg hbase]
        have hmono := truncLoop_length_mono (fun s => (measure s).right - (measure s).left)
          (strip text) (le_of_lt hW) ((strip text).length + 1) 0 (strip text).length [] []
          (by omega) le_rfl (fun j _ _ => Nat.zero_le _)
        by_cases hq1 : (truncLoop (fun s => (measure s).right - (measure s).left) (strip text)
            W1 0 (strip text).length []).isEmpty = true
        · rw [if_pos hq1]
          by_cases hq2 : (truncLoop (fun s => (measure s).right - (measure s).left) (strip text)
              W2 0 (strip text).length []).isEmpty = true
          · rw [if_pos hq2]
          · rw [if_neg hq2]
            have hne2 : truncLoop (fun s => (measure s).right - (measure s).left) (strip text)
                W2 0 (strip text).length [] ≠ [] := fun hh => hq2 (by rw [hh]; rfl)
            exact Nat.succ_le_of_lt (List.length_pos.mpr hne2)
        · rw [if_neg hq1]
          by_cases hq2 : (truncLoop (fun s => (measure s).right - (measure s).left) (strip text)
              W2 0 (strip text).length []).isEmpty = true
          · exfalso
            apply hq1
            have h0 : (truncLoop (fun s => (measure s).right - (measure s).left) (strip text)
                W2 0 (strip text).length []).length = 0 := by
              rw [List.isEmpty_iff.mp hq2]
              rfl
            have h3 : (truncLoop (fun s => (measure s).right - (measure s).left) (strip text)
                W1 0 (strip text).length []).length = 0 := by omega
            rw [List.length_eq_zero.mp h3]
            rfl
          · rw [if_neg hq2]
            exact hmono

/-- Witness for C6 on a concrete input. -/
theorem claim6_witness :
    (1 : Int) < 2 ∧
      (truncateToFit zeroMeasure ['A', 'B'] 1).length ≤
        (truncateToFit zeroMeasure ['A', 'B'] 2).length :=
  ⟨by norm_num, claim6_truncate_monotone zeroMeasure ['A', 'B'] 1 2 (by norm_num)⟩

/-- One unfolding step of the binary-search loop, with the `let` bindings of
the body expanded. -/
theorem truncLoop_eq (w : Text → Int) (base : Text) (maxW : Int) (lo hi : Nat) (best : Text) :
    truncLoop w base maxW lo hi best =
      if lo ≤ hi then
        if w (candFn base ((lo + hi) / 2)) ≤ maxW then
          truncLoop w base maxW ((lo + hi) / 2 + 1) hi (candFn base ((lo + hi) / 2))
        else if (lo + hi) / 2 = 0 then best
        else truncLoop w base maxW lo ((lo + hi) / 2 - 1) best
      else best := by
  rw [truncLoop]
  rfl

/-- C7: `_truncate_to_fit` is idempotent: truncating an already-truncated
string with the same font and budget returns it unchanged. -/
theorem claim7_truncate_idempotent (measure : Text → Bbox) (text : Text) (maxW : Int) :
    truncateToFit measure (truncateToFit measure text maxW) maxW =
      truncateToFit measure text maxW := by
  by_cases h1 : (measure text).right - (measure text).left ≤ maxW
  · have hres : truncateToFit measure text maxW = text := by
      rw [truncateToFit_eq, if_pos h1]
    rw [hres]
    exact hres
  · by_cases hbase : (strip text).isEmpty = true
    · have hres : truncateToFit measure text maxW = [] := by
        rw [truncateToFit_eq, if_neg h1, if_pos hbase]
      rw [hres]
      by_cases h0 : (measure []).right - (measure []).left ≤ maxW
      · rw [truncateToFit_eq, if_pos h0]
      · rw [truncateToFit_eq, if_neg h0]
        rfl
    · have hb : strip text ≠ [] := fun hh => hbase (by rw [hh]; rfl)
      by_cases hbest : (truncLoop (fun s => (measure s).right - (measure s).left) (strip text)
          maxW 0 (strip text).length []).isEmpty = true
      · -- nothing fit: the result is the bare ellipsis, which itself fails the
        -- budget, so re-truncating runs the search on the ellipsis and again
        -- returns the bare ellipsis
        have hres : truncateToFit measure text maxW = [ellipsisChar] := by
          rw [truncateToFit_eq, if_neg h1, if_neg hbase, if_pos hbest]
        obtain ⟨-, hne0⟩ := truncLoop_nil_probe
          (fun s => (measure s).right - (measure s).left) maxW hb (strip text).length
          (strip text).length [] le_rfl (List.isEmpty_iff.mp hbest)
        have hcand0 : candFn (strip text) 0 = [ellipsisChar] := by
          rw [candFn, if_pos (List.length_pos.mpr hb)]
          rfl
        rw [hcand0] at hne0
        have hne : ¬ (measure [ellipsisChar]).right - (measure [ellipsisChar]).left ≤ maxW := hne0
        rw [hres]
        rw [truncateToFit_eq, if_neg hne]
        have hstripe : strip [ellipsisChar] = [ellipsisChar] := rfl
        rw [hstripe]
        have hloop : truncLoop (fun s => (measure s).right - (measure s).left) [ellipsisChar]
            maxW 0 1 [] = [] := by
          rw [truncLoop_eq, if_pos (Nat.zero_le 1)]
          have hc : candFn [ellipsisChar] ((0 + 1) / 2) = [ellipsisChar] := rfl
          rw [hc, if_neg hne, if_pos (by norm_num : (0 + 1) / 2 = 0)]
        have hlen : ([ellipsisChar] : Text).length = 1 := rfl
        rw [if_neg (by decide : ¬ ([ellipsisChar] : Text).isEmpty = true), hlen, hloop]
        rfl
      · -- the best candidate fits, so re-truncating returns it via the fast path
        have hres : truncateToFit measure text maxW =
            truncLoop (fun s => (measure s).right - (measure s).left) (strip text)
              maxW 0 (strip text).length [] := by
          rw [truncateToFit_eq, if_neg h1, if_neg hbase, if_neg hbest]
        have hne : truncLoop (fun s => (measure s).right - (measure s).left) (strip text)
            maxW 0 (strip text).length [] ≠ [] := fun hh => hbest (by rw [hh]; rfl)
        rcases truncLoop_result (fun s => (measure s).right - (measure s).left) (strip text)
            maxW ((strip text).length + 1) 0 (strip text).length [] (by omega) with h | ⟨j, hj1, hj2⟩
        · exact absurd h hne
        · have hfit : (measure (truncLoop (fun s => (measure s).right - (measure s).left)
              (strip text) maxW 0 (strip text).length [])).right -
              (measure (truncLoop (fun s => (measure s).right - (measure s).left)
                (strip text) maxW 0 (strip text).length [])).left ≤ maxW := by
            rw [hj2]
            exact hj1
          rw [hres, truncateToFit_eq, if_pos hfit]

/-- Unfolding: `generate_certificate` is the empty-name check followed by the pure
layout computation. -/
theorem generateCertificate_eq (measureAt : Int → Text → Bbox) (width height : Int)
    (cfg : StudentConfig) (studentName : Text) (course : Option Text) :
    generateCertificate measureAt width height cfg studentName course =
      if (strip studentName).isEmpty then .error .emptyInput
      else .ok (studentLayout measureAt width height cfg studentName course) := by
  rw [generateCertificate, studentLayout.eq_def]

/-- Unfolding: `generate_management_certificate` is the empty-name check followed by the
pure layout computation. -/
theorem generateManagementCertificate_eq (measureAt : Int → Text → Bbox) (width height : Int)
    (cfg : MgmtConfig) (personName : Text) :
    generateManagementCertificate measureAt width height cfg personName =
      if (strip personName).isEmpty then .error .emptyInput
      else .ok (managementLayout measureAt width height cfg personName) := by
  rw [generateManagementCertificate, managementLayout.eq_def]

/-- C8: In both generation paths, a name that trims to the empty string
raises the empty-input error — for every measurement function, so before any
fitting or placement can contribute — and a name that trims to something
non-empty never raises it. -/
theorem claim8_empty_input :
    (∀ (measureAt : Int → Text → Bbox) (w h : Int) (cfg : StudentConfig) (nm : Text)
        (course : Option Text),
      ((strip nm).isEmpty = true →
        generateCertificate measureAt w h cfg nm course = .error .emptyInput) ∧
      ((strip nm).isEmpty = false →
        generateCertificate measureAt w h cfg nm course ≠ .error .emptyInput)) ∧
    (∀ (measureAt : Int → Text → Bbox) (w h : Int) (cfg : MgmtConfig) (nm : Text),
      ((strip nm).isEmpty = true →
        generateManagementCertificate measureAt w h cfg nm = .error .emptyInput) ∧
      ((strip nm).isEmpty = false →
        generateManagementCertificate measureAt w h cfg nm ≠ .error .emptyInput)) := by
  constructor
  · intro measureAt w h cfg nm course
    rw [generateCertificate_eq]
    constructor
    · intro he
      rw [if_pos he]
    · intro he
      rw [if_neg (by rw [he]; exact Bool.false_ne_true)]
      exact fun hc => Except.noConfusion hc
  · intro measureAt w h cfg nm
    rw [generateManagementCertificate_eq]
    constructor
    · intro he
      rw [if_pos he]
    · intro he
      rw [if_neg (by rw [he]; exact Bool.false_ne_true)]
      exact fun hc => Except.noConfusion hc

/-- Witness for C8 on concrete inputs: empty and whitespace-only names error
out, non-empty names do not. -/
theorem claim8_witness :
    generateCertificate zeroMeasureAt 100 100 wCfg [] none = .error .emptyInput ∧
      generateCertificate zeroMeasureAt 100 100 wCfg ['B'] none ≠ .error .emptyInput ∧
      generateManagementCertificate zeroMeasureAt 100 100 wMgmtCfg [' '] = .error .emptyInput ∧
      generateManagementCertificate zeroMeasureAt 100 100 wMgmtCfg ['B'] ≠ .error .emptyInput :=
  ⟨(claim8_empty_input.1 zeroMeasureAt 100 100 wCfg [] none).1 rfl,
    (claim8_empty_input.1 zeroMeasureAt 100 100 wCfg ['B'] none).2 rfl,
    (claim8_empty_input.2 zeroMeasureAt 100 100 wMgmtCfg [' ']).1 rfl,
    (claim8_empty_input.2 zeroMeasureAt 100 100 wMgmtCfg ['B']).2 rfl⟩

/-- Truncation toward zero of an integer value is that integer. -/
theorem intTrunc_intCast (z : Int) : intTrunc (z : ℚ) = z := by
  rw [intTrunc]
  split
  · exact Int.ceil_intCast z
  · exact Int.floor_intCast z

/-- C9 (amended): In both generation paths the width budget is
`max_text_width = max(1, width - 2*margin)`, hence at least 1 pixel, and it
is exactly the budget handed to the fitter and the truncator; a margin from
the digits-only pixel override is non-negative.  (The ratio-derived margin
is not clamped and can be negative, see the counterexample.) -/
theorem claim9_width_budget :
    (∀ (measureAt : Int → Text → Bbox) (w h : Int) (cfg : StudentConfig) (nm : Text)
        (course : Option Text) (L : Layout),
        generateCertificate measureAt w h cfg nm course = .ok L →
        1 ≤ L.maxTextWidth ∧ L.maxTextWidth = max 1 (w - 2 * L.margin) ∧
          L.primary.size = fitText measureAt (strip nm) L.maxTextWidth cfg.startSize cfg.minSize ∧
          L.primary.text = truncateToFit (measureAt L.primary.size) (strip nm) L.maxTextWidth ∧
          (∀ n, cfg.marginPx = some n → L.margin = (n : Int) ∧ 0 ≤ L.margin)) ∧
    (∀ (measureAt : Int → Text → Bbox) (w h : Int) (cfg : MgmtConfig) (nm : Text)
        (M : MgmtLayout),
        generateManagementCertificate measureAt w h cfg nm = .ok M →
        1 ≤ M.maxTextWidth ∧ M.maxTextWidth = max 1 (w - 2 * M.margin) ∧
          M.name.size = fitText measureAt (strip nm) M.maxTextWidth cfg.startSize cfg.minSize ∧
          M.name.text = truncateToFit (measureAt M.name.size) (strip nm) M.maxTextWidth ∧
          (∀ n, cfg.marginPx = some n → M.margin = (n : Int) ∧ 0 ≤ M.margin)) := by
  constructor
  · intro measureAt w h cfg nm course L hok
    rw [generateCertificate_eq] at hok
    by_cases he : (strip nm).isEmpty = true
    · rw [if_pos he] at hok
      exact Except.noConfusion hok
    · rw [if_neg he] at hok
      injection hok with hL
      subst hL
      refine ⟨le_max_left 1 _, rfl, rfl, rfl, fun n hn => ?_⟩
      constructor
      · simp only [studentLayout.eq_def]
        rw [hn]
      · simp only [studentLayout.eq_def]
        rw [hn]
        exact Int.natCast_nonneg n
  · intro measureAt w h cfg nm M hok
    rw [generateManagementCertificate_eq] at hok
    by_cases he : (strip nm).isEmpty = true
    · rw [if_pos he] at hok
      exact Except.noConfusion hok
    · rw [if_neg he] at hok
      injection hok with hM
      subst hM
      refine ⟨le_max_left 1 _, rfl, rfl, rfl, fun n hn => ?_⟩
      constructor
      · simp only [managementLayout.eq_def]
        rw [hn]
      · simp only [managementLayout.eq_def]
        rw [hn]
        exact Int.natCast_nonneg n

/-- Counterexample to C9 as stated: with margin ratio `-1` (no pixel
override) on a 10-pixel-wide canvas, the computed margin is `-10`; the code
never clamps the margin to be non-negative. -/
theorem claim9_counterexample :
    marginOf (generateCertificate zeroMeasureAt 10 10 negRatioCfg ['B'] none) = some (-10) ∧
      ¬ (0 : Int) ≤ -10 := by
  constructor
  · rw [generateCertificate_eq, if_neg (by decide)]
    simp only [marginOf, studentLayout.eq_def, negRatioCfg]
    have h : ((10 : Int) : ℚ) * (-1) = ((-10 : Int) : ℚ) := by norm_num
    rw [h, intTrunc_intCast]
  · norm_num

/-- Witness for C9 (amended) on a concrete input. -/
theorem claim9_witness :
    1 ≤ (studentLayout zeroMeasureAt 100 100 wCfg ['B'] none).maxTextWidth ∧
      (studentLayout zeroMeasureAt 100 100 wCfg ['B'] none).maxTextWidth =
        max 1 (100 - 2 * (studentLayout zeroMeasureAt 100 100 wCfg ['B'] none).margin) ∧
      (studentLayout zeroMeasureAt 100 100 wCfg ['B'] none).primary.size =
        fitText zeroMeasureAt (strip ['B'])
          (studentLayout zeroMeasureAt 100 100 wCfg ['B'] none).maxTextWidth
          wCfg.startSize wCfg.minSize ∧
      (studentLayout zeroMeasureAt 100 100 wCfg ['B'] none).primary.text =
        truncateToFit
          (zeroMeasureAt (studentLayout zeroMeasureAt 100 100 wCfg ['B'] none).primary.size)
          (strip ['B']) (studentLayout zeroMeasureAt 100 100 wCfg ['B'] none).maxTextWidth ∧
      (∀ n, wCfg.marginPx = some n →
        (studentLayout zeroMeasureAt 100 100 wCfg ['B'] none).margin = (n : Int) ∧
          0 ≤ (studentLayout zeroMeasureAt 100 100 wCfg ['B'] none).margin) :=
  claim9_width_budget.1 zeroMeasureAt 100 100 wCfg ['B'] none
    (studentLayout zeroMeasureAt 100 100 wCfg ['B'] none)
    (by rw [generateCertificate_eq, if_neg (by decide)])

/-- C3 (amended): In both placement paths the clamped x (before any cosmetic
x-offset) is always at least `margin`, and it is at most
`canvas_width - margin - text_width` provided the final text is narrow
enough that the clamp interval is nonempty
(`text_width ≤ canvas_width - 2*margin`).  When even the bare ellipsis
overflows the budget the interval is empty and the code settles on
`x = margin`, violating the upper bound (see the counterexample). -/
theorem claim3_clamped_x :
    (∀ (measureAt : Int → Text → Bbox) (w h : Int) (cfg : StudentConfig) (nm : Text)
        (course : Option Text) (L : Layout),
        generateCertificate measureAt w h cfg nm course = .ok L →
        (L.margin : ℚ) ≤ L.primary.x ∧
          ((L.primary.w : ℚ) ≤ (w : ℚ) - 2 * (L.margin : ℚ) →
            L.primary.x ≤ (w : ℚ) - (L.margin : ℚ) - (L.primary.w : ℚ))) ∧
    (∀ (measureAt : Int → Text → Bbox) (w h : Int) (cfg : MgmtConfig) (nm : Text)
        (M : MgmtLayout),
        generateManagementCertificate measureAt w h cfg nm = .ok M →
        (M.margin : ℚ) ≤ M.xClamped ∧
          ((M.name.w : ℚ) ≤ (w : ℚ) - 2 * (M.margin : ℚ) →
            M.xClamped ≤ (w : ℚ) - (M.margin : ℚ) - (M.name.w : ℚ))) := by
  constructor
  · intro measureAt w h cfg nm course L hok
    rw [generateCertificate_eq] at hok
    by_cases he : (strip nm).isEmpty = true
    · rw [if_pos he] at hok
      exact Except.noConfusion hok
    · rw [if_neg he] at hok
      injection hok with hL
      subst hL
      constructor
      · exact le_max_left _ _
      · intro hle
        simp only [studentLayout.eq_def] at hle ⊢
        refine max_le (by linarith) (min_le_right _ _)
  · intro measureAt w h cfg nm M hok
    rw [generateManagementCertificate_eq] at hok
    by_cases he : (strip nm).isEmpty = true
    · rw [if_pos he] at hok
      exact Except.noConfusion hok
    · rw [if_neg he] at hok
      injection hok with hM
      subst hM
      constructor
      · exact le_max_left _ _
      · intro hle
        simp only [managementLayout.eq_def] at hle ⊢
        refine max_le (by linarith) (min_le_right _ _)

/-- Counterexample to C3 as stated: on a 100-pixel canvas with pixel margin
12, a measurement in which every string (including the bare ellipsis) is 200
pixels wide makes the final text 200 pixels wide, so the clamp interval
`[12, 100 - 12 - 200]` is empty; the code places the text at `x = 12`,
which violates `x ≤ canvas_width - margin - text_width`. -/
theorem claim3_counterexample :
    marginOf (generateCertificate wideMeasureAt 100 100 cex3Cfg ['A'] none) = some 12 ∧
      primaryOf (generateCertificate wideMeasureAt 100 100 cex3Cfg ['A'] none) =
        some ⟨[ellipsisChar], 14, 12, 45, 200, 10⟩ ∧
      ¬ ((12 : ℚ) ≤ (12 : ℚ) ∧ (12 : ℚ) ≤ (100 : ℚ) - 12 - 200) := by
  have hstrip : strip ['A'] = ['A'] := rfl
  have hcand : candFn ['A'] 0 = [ellipsisChar] := rfl
  have hsize : fitText wideMeasureAt ['A'] 76 12 14 = 14 := by
    rw [fitText, fitLoop]
    norm_num
  have hloop : truncLoop (fun s => ((wideMeasureAt 14) s).right - ((wideMeasureAt 14) s).left)
      ['A'] 76 0 1 [] = [] := by
    rw [truncLoop_eq]
    norm_num [hcand, wideMeasureAt]
  have htr : truncateToFit (wideMeasureAt 14) ['A'] 76 = [ellipsisChar] := by
    rw [truncateToFit_eq]
    rw [if_neg (by norm_num [wideMeasureAt])]
    rw [if_neg (by decide), hstrip]
    have hlen : (['A'] : Text).length = 1 := rfl
    rw [hlen, hloop]
    rfl
  have hmax : max (1 : Int) (100 - 2 * ((12 : Nat) : Int)) = 76 := by norm_num
  refine ⟨?_, ?_, by norm_num⟩
  · rw [generateCertificate_eq, if_neg (by decide)]
    simp only [marginOf, studentLayout.eq_def, cex3Cfg]
    norm_num
  · rw [generateCertificate_eq, if_neg (by decide)]
    simp only [primaryOf, studentLayout.eq_def, cex3Cfg, hstrip]
    rw [hmax, hsize, htr]
    norm_num [wideMeasureAt, max_def, min_def]

/-- Witness for C3 (amended) on a concrete input. -/
theorem claim3_witness :
    ((studentLayout zeroMeasureAt 100 100 wCfg ['B'] none).margin : ℚ) ≤
        (studentLayout zeroMeasureAt 100 100 wCfg ['B'] none).primary.x ∧
      (((studentLayout zeroMeasureAt 100 100 wCfg ['B'] none).primary.w : ℚ) ≤
          (100 : ℚ) - 2 * ((studentLayout zeroMeasureAt 100 100 wCfg ['B'] none).margin : ℚ) →
        (studentLayout zeroMeasureAt 100 100 wCfg ['B'] none).primary.x ≤
          (100 : ℚ) - ((studentLayout zeroMeasureAt 100 100 wCfg ['B'] none).margin : ℚ) -
            ((studentLayout zeroMeasureAt 100 100 wCfg ['B'] none).primary.w : ℚ)) :=
  claim3_clamped_x.1 zeroMeasureAt 100 100 wCfg ['B'] none
    (studentLayout zeroMeasureAt 100 100 wCfg ['B'] none)
    (by rw [generateCertificate_eq, if_neg (by decide)])

/-- C4 (amended): When a course line survives trimming, it is truncated (not
size-fitted) against the same `max_text_width` at size
`max(min_size, int(start_size * 0.6))` — a floor at `min_size`, not a pure
ratio — and drawn at
`y = primary_y + primary_text_height + int(0.02 * height) - course_top_bearing`
(the course box's own top bearing is subtracted, so the draw coordinate is
not exactly `primary_y + primary_height + gap` unless that bearing is zero);
it is independently centered and clamped exactly like the primary line. -/
theorem claim4_secondary_line (measureAt : Int → Text → Bbox) (w h : Int)
    (cfg : StudentConfig) (nm : Text) (course : Option Text) (L : Layout) (s : Placed)
    (hok : generateCertificate measureAt w h cfg nm course = .ok L)
    (hsec : L.secondary = some s) :
    s.size = max cfg.minSize (intTrunc ((cfg.startSize : ℚ) * (3 / 5))) ∧
      s.text = truncateToFit (measureAt s.size) (strip (course.getD [])) L.maxTextWidth ∧
      s.y = L.primary.y + (L.primary.h : ℚ) + (intTrunc ((h : ℚ) * (1 / 50)) : ℚ) -
        ((measureAt s.size s.text).top : ℚ) ∧
      (L.margin : ℚ) ≤ s.x ∧
      ((s.w : ℚ) ≤ (w : ℚ) - 2 * (L.margin : ℚ) →
        s.x ≤ (w : ℚ) - (L.margin : ℚ) - (s.w : ℚ)) := by
  rw [generateCertificate_eq] at hok
  by_cases he : (strip nm).isEmpty = true
  · rw [if_pos he] at hok
    exact Except.noConfusion hok
  · rw [if_neg he] at hok
    injection hok with hL
    subst hL
    simp only [studentLayout.eq_def] at hsec
    split at hsec
    · exact Option.noConfusion hsec
    · split at hsec
      · exact Option.noConfusion hsec
      · injection hsec with hs
        subst hs
        refine ⟨rfl, rfl, rfl, le_max_left _ _, fun hle => ?_⟩
        simp only [studentLayout.eq_def] at hle ⊢
        refine max_le (by linarith) (min_le_right _ _)

/-- Counterexample to C4 as stated: with a measurement whose boxes have top
bearing 5 (box of `text` at size `s` is `(0, 5, len, 5+s)`), name "Bob" and
course "Jo" on a 1000×500 canvas (margin 100, start 40, min 14), the primary
line lands at `y = 225` with height 40 and the gap is `int(0.02*500) = 10`,
yet the course draw coordinate is `270 = 225 + 40 + 10 - 5`, not
`225 + 40 + 10 = 275`: the claimed stacking equation fails by the course
top bearing. -/
theorem claim4_counterexample :
    primaryOf (generateCertificate bearingMeasureAt 1000 500 cex4Cfg
        ['B', 'o', 'b'] (some ['J', 'o'])) =
      some ⟨['B', 'o', 'b'], 40, 997 / 2, 225, 3, 40⟩ ∧
      secondaryOf (generateCertificate bearingMeasureAt 1000 500 cex4Cfg
          ['B', 'o', 'b'] (some ['J', 'o'])) =
        some ⟨['J', 'o'], 24, 499, 270, 2, 24⟩ ∧
      ((270 : ℚ) ≠ 225 + 40 + 10) := by
  have hstripB : strip ['B', 'o', 'b'] = ['B', 'o', 'b'] := rfl
  have hstripJ : strip ['J', 'o'] = ['J', 'o'] := rfl
  have hsize : fitText bearingMeasureAt ['B', 'o', 'b'] 800 40 14 = 40 := by
    rw [fitText, fitLoop]
    norm_num [bearingMeasureAt]
  have htr1 : truncateToFit (bearingMeasureAt 40) ['B', 'o', 'b'] 800 = ['B', 'o', 'b'] := by
    rw [truncateToFit_eq, if_pos (by norm_num [bearingMeasureAt])]
  have htr2 : truncateToFit (bearingMeasureAt 24) ['J', 'o'] 800 = ['J', 'o'] := by
    rw [truncateToFit_eq, if_pos (by norm_num [bearingMeasureAt])]
  have hmax : max (1 : Int) (1000 - 2 * ((100 : Nat) : Int)) = 800 := by norm_num
  have hpad : intTrunc (((500 : Int) : ℚ) * (1 / 50)) = 10 := by
    rw [(by norm_num : (((500 : Int) : ℚ) * (1 / 50)) = ((10 : Int) : ℚ)), intTrunc_intCast]
  have hcsize : max (14 : Int) (intTrunc (((40 : Int) : ℚ) * (3 / 5))) = 24 := by
    rw [(by norm_num : (((40 : Int) : ℚ) * (3 / 5)) = ((24 : Int) : ℚ)), intTrunc_intCast]
    norm_num
  refine ⟨?_, ?_, by norm_num⟩
  · rw [generateCertificate_eq, if_neg (by decide)]
    simp only [primaryOf, studentLayout.eq_def, cex4Cfg, hstripB]
    rw [hmax, hsize, htr1]
    norm_num [bearingMeasureAt, max_def, min_def]
  · rw [generateCertificate_eq, if_neg (by decide)]
    simp only [secondaryOf, studentLayout.eq_def, cex4Cfg, hstripB, hstripJ]
    rw [hmax, hsize, htr1, hcsize, htr2, hpad]
    norm_num [bearingMeasureAt, max_def, min_def]

/-- Witness for C4 (amended) on a concrete input with a course line. -/
theorem claim4_witness :
    ((studentLayout zeroMeasureAt 100 100 wCfg ['B'] (some ['C'])).secondary.getD
          ⟨[], 0, 0, 0, 0, 0⟩).size =
        max wCfg.minSize (intTrunc ((wCfg.startSize : ℚ) * (3 / 5))) ∧
      ((studentLayout zeroMeasureAt 100 100 wCfg ['B'] (some ['C'])).secondary.getD
          ⟨[], 0, 0, 0, 0, 0⟩).text =
        truncateToFit
          (zeroMeasureAt
            (((studentLayout zeroMeasureAt 100 100 wCfg ['B'] (some ['C'])).secondary.getD
              ⟨[], 0, 0, 0, 0, 0⟩).size))
          (strip ((some ['C'] : Option Text).getD []))
          (studentLayout zeroMeasureAt 100 100 wCfg ['B'] (some ['C'])).maxTextWidth ∧
      ((studentLayout zeroMeasureAt 100 100 wCfg ['B'] (some ['C'])).secondary.getD
          ⟨[], 0, 0, 0, 0, 0⟩).y =
        (studentLayout zeroMeasureAt 100 100 wCfg ['B'] (some ['C'])).primary.y +
          ((studentLayout zeroMeasureAt 100 100 wCfg ['B'] (some ['C'])).primary.h : ℚ) +
          (intTrunc (((100 : Int) : ℚ) * (1 / 50)) : ℚ) -
          ((zeroMeasureAt
              (((studentLayout zeroMeasureAt 100 100 wCfg ['B'] (some ['C'])).secondary.getD
                ⟨[], 0, 0, 0, 0, 0⟩).size)
              (((studentLayout zeroMeasureAt 100 100 wCfg ['B'] (some ['C'])).secondary.getD
                ⟨[], 0, 0, 0, 0, 0⟩).text)).top : ℚ) ∧
      (((studentLayout zeroMeasureAt 100 100 wCfg ['B'] (some ['C'])).margin : ℚ) ≤
        ((studentLayout zeroMeasureAt 100 100 wCfg ['B'] (some ['C'])).secondary.getD
          ⟨[], 0, 0, 0, 0, 0⟩).x) ∧
      ((((studentLayout zeroMeasureAt 100 100 wCfg ['B'] (some ['C'])).secondary.getD
            ⟨[], 0, 0, 0, 0, 0⟩).w : ℚ) ≤
          (100 : ℚ) - 2 * ((studentLayout zeroMeasureAt 100 100 wCfg ['B'] (some ['C'])).margin : ℚ) →
        ((studentLayout zeroMeasureAt 100 100 wCfg ['B'] (some ['C'])).secondary.getD
            ⟨[], 0, 0, 0, 0, 0⟩).x ≤
          (100 : ℚ) - ((studentLayout zeroMeasureAt 100 100 wCfg ['B'] (some ['C'])).margin : ℚ) -
            (((studentLayout zeroMeasureAt 100 100 wCfg ['B'] (some ['C'])).secondary.getD
              ⟨[], 0, 0, 0, 0, 0⟩).w : ℚ)) :=
  claim4_secondary_line zeroMeasureAt 100 100 wCfg ['B'] (some ['C'])
    (studentLayout zeroMeasureAt 100 100 wCfg ['B'] (some ['C']))
    ((studentLayout zeroMeasureAt 100 100 wCfg ['B'] (some ['C'])).secondary.getD
      ⟨[], 0, 0, 0, 0, 0⟩)
    (by rw [generateCertificate_eq, if_neg (by decide)]) rfl

/-- The first cursor position of the letter-spaced drawing is the starting x. -/
theorem spacedPositions_zero (charW : Char → Int) (r x : ℚ) (cs : Text) :
    (spacedPositions charW r x cs)[0]? = some x := by
  cases cs with
  | nil => rfl
  | cons c t => simp only [spacedPositions, List.getElem?_cons_zero]

/-- Head form of `spacedPositions_zero`. -/
theorem spacedPositions_head? (charW : Char → Int) (r x : ℚ) (cs : Text) :
    (spacedPositions charW r x cs).head? = some x := by
  cases cs with
  | nil => rfl
  | cons c t => simp only [spacedPositions, List.head?_cons]

/-- Truncation toward zero preserves non-negativity. -/
theorem intTrunc_nonneg (q : ℚ) (h : 0 ≤ q) : 0 ≤ intTrunc q := by
  rw [intTrunc, if_neg (not_lt.mpr h)]
  exact Int.le_floor.mpr (by exact_mod_cast h)

/-- C5 (amended): In letter-spaced drawing the cursor advances after each
glyph by `char_width + int(char_width * ratio)` — the spacing pixels are
truncated to an integer, so the advance is not exactly
`char_width * (1 + ratio)` — and whenever the ratio and all measured glyph
widths are non-negative the cursor positions are monotone (non-decreasing). -/
theorem claim5_letter_spacing (charW : Char → Int) (r x : ℚ) (cs : Text) :
    (∀ (i : Nat) (c : Char) (p : ℚ), cs[i]? = some c →
        (spacedPositions charW r x cs)[i]? = some p →
        (spacedPositions charW r x cs)[i + 1]? =
          some (p + (charW c : ℚ) + (intTrunc ((charW c : ℚ) * r) : ℚ))) ∧
      (0 ≤ r → (∀ c ∈ cs, 0 ≤ charW c) →
        List.Chain' (· ≤ ·) (spacedPositions charW r x cs)) := by
  induction cs generalizing x with
  | nil =>
    constructor
    · intro i c p h1 h2
      simp at h1
    · intro _ _
      exact List.chain'_singleton x
  | cons c cs ih =>
    constructor
    · intro i c' p h1 h2
      cases i with
      | zero =>
        rw [List.getElem?_cons_zero] at h1
        injection h1 with hc
        subst hc
        rw [spacedPositions_zero] at h2
        injection h2 with hp
        subst hp
        simp only [spacedPositions, List.getElem?_cons_succ]
        rw [spacedPositions_zero]
      | succ i =>
        rw [List.getElem?_cons_succ] at h1
        simp only [spacedPositions, List.getElem?_cons_succ] at h2 ⊢
        exact (ih _).1 i c' p h1 h2
    · intro hr hw
      simp only [spacedPositions]
      refine List.chain'_cons'.mpr
        ⟨?_, (ih _).2 hr (fun d hd => hw d (List.mem_cons_of_mem c hd))⟩
      intro y hy
      rw [spacedPositions_head?, Option.mem_some_iff] at hy
      subst hy
      have h1 : 0 ≤ charW c := hw c (List.mem_cons_self c cs)
      have h1q : (0 : ℚ) ≤ (charW c : ℚ) := by exact_mod_cast h1
      have h2 : 0 ≤ intTrunc ((charW c : ℚ) * r) := intTrunc_nonneg _ (mul_nonneg h1q hr)
      have h2q : (0 : ℚ) ≤ (intTrunc ((charW c : ℚ) * r) : ℚ) := by exact_mod_cast h2
      linarith

/-- Counterexample to C5 as stated: with every glyph 10 pixels wide and
ratio `0.015` (Scenario E, text "ADMIN"), the cursor after the first glyph
sits at `0 + 10 + int(10 * 0.015) = 10`, not at `10 * 1.015 = 10.15`: the
spacing pixels are truncated to an integer before being added. -/
theorem claim5_counterexample :
    (spacedPositions tenCharW (3 / 200) 0 ['A', 'D', 'M', 'I', 'N'])[1]? = some 10 ∧
      (10 : ℚ) ≠ 0 + 10 * (1 + 3 / 200) := by
  have hfl : intTrunc (((10 : Int) : ℚ) * (3 / 200)) = 0 := by
    rw [intTrunc, if_neg (by norm_num)]
    rw [Int.floor_eq_zero_iff]
    constructor <;> norm_num
  constructor
  · simp only [spacedPositions, tenCharW, hfl, List.getElem?_cons_succ,
      List.getElem?_cons_zero]
    norm_num
  · norm_num

/-- Witness for C5 (amended) on a concrete input. -/
theorem claim5_witness :
    (spacedPositions tenCharW (3 / 200) 0 ['A'])[0 + 1]? =
        some (0 + ((tenCharW 'A' : Int) : ℚ) +
          (intTrunc (((tenCharW 'A' : Int) : ℚ) * (3 / 200)) : ℚ)) ∧
      List.Chain' (· ≤ ·) (spacedPositions tenCharW (3 / 200) 0 ['A']) :=
  ⟨(claim5_letter_spacing tenCharW (3 / 200) 0 ['A']).1 0 'A' 0 rfl rfl,
    (claim5_letter_spacing tenCharW (3 / 200) 0 ['A']).2 (by norm_num)
      (fun c _ => by norm_num [tenCharW])⟩
